import Mathlib

/-!
A shallow embedding of the K-FAC preconditioned SGD optimizer from
`examples/kfac_pre.py`, together with theorems settling the spec's claims.

Modelling conventions:
* numpy float arrays become matrices over `ℚ` (exact arithmetic);
* per-layer lists (statistics, factor estimates, preconditioner, parameters)
  are modelled as functions from `Fin L` into a shape-indexed family, which
  embeds the source's length-matched `zip` comprehensions pointwise;
* fallible numeric operations (`np.linalg.inv` on a singular matrix, the
  unguarded division by a zero sample count) return `Option`;
* the external randomness (minibatch row draws, sampled targets) and the
  external automatic-differentiation facility (`value_and_grad`,
  `grad_and_aux`) are abstracted as explicit oracle arguments, following the
  spec's statement that differentiation is a consumed capability.
-/

namespace KfacPre

/-- Shape of one fully connected layer: `m` inputs, `n` outputs
(one `(m, n)` pair from `zip(layer_sizes[:-1], layer_sizes[1:])`). -/
structure LayerShape where
  m : ℕ
  n : ℕ
deriving DecidableEq

/-- Shape of the activation-side factor `AA` of a layer: `(m+1) × (m+1)`
because activations are homogenized with a ones column. -/
abbrev ActMat (s : LayerShape) : Type := Matrix (Fin (s.m + 1)) (Fin (s.m + 1)) ℚ

/-- Shape of the gradient-side factor `GG` of a layer: `n × n`. -/
abbrev GradMat (s : LayerShape) : Type := Matrix (Fin s.n) (Fin s.n) ℚ

/-- One raw-statistics triple `(AA, GG, n)` of a layer. -/
abbrev StatsOf (s : LayerShape) : Type := ActMat s × GradMat s × ℕ

/-- One factor-estimate (or preconditioner) pair `(A, G)` of a layer. -/
abbrev FactorsOf (s : LayerShape) : Type := ActMat s × GradMat s

/-- One `(weight matrix, bias vector)` pair of a layer; gradients have the
same per-layer shape as parameters. -/
abbrev LayerWB (s : LayerShape) : Type := Matrix (Fin s.m) (Fin s.n) ℚ × (Fin s.n → ℚ)

/-- A per-layer list of raw statistics triples. -/
abbrev Stats {L : ℕ} (sz : Fin L → LayerShape) : Type := (i : Fin L) → StatsOf (sz i)

/-- A per-layer list of factor-estimate pairs. -/
abbrev Factors {L : ℕ} (sz : Fin L → LayerShape) : Type := (i : Fin L) → FactorsOf (sz i)

/-- A per-layer list of preconditioner pairs `(Ainv, Ginv)`. -/
abbrev Precond {L : ℕ} (sz : Fin L → LayerShape) : Type := (i : Fin L) → FactorsOf (sz i)

/-- A per-layer list of `(weight, bias)` pairs: the `Parameters` value (and
also the shape of a raw gradient). -/
abbrev Params {L : ℕ} (sz : Fin L → LayerShape) : Type := (i : Fin L) → LayerWB (sz i)

variable {L : ℕ} {sz : Fin L → LayerShape}

/-! ### Bookkeeping (`update_stats`, `init_stats`, factor estimates) -/

/-- Embeds `update_stats`: per layer, elementwise-add the two matrices and
the count (`map(add, s1, s2)` on each zipped triple). -/
def update_stats (stats new_stats : Stats sz) : Stats sz := fun i =>
  ((stats i).1 + (new_stats i).1,
   (stats i).2.1 + (new_stats i).2.1,
   (stats i).2.2 + (new_stats i).2.2)

/-- Embeds `init_stats`: per layer, zero matrices and count 0. -/
def init_stats (sz : Fin L → LayerShape) : Stats sz := fun _ => (0, 0, 0)

/-- Embeds `init_factor_estimates`: per layer, identity matrices
(`np.eye(m+1)`, `np.eye(n)`). -/
def init_factor_estimates (sz : Fin L → LayerShape) : Factors sz := fun _ => (1, 1)

/-- Elementwise division of a matrix by a natural-number count, embedding
the numpy broadcast `X / n`. -/
def matDivNat {a b : ℕ} (X : Matrix (Fin a) (Fin b) ℚ) (n : ℕ) :
    Matrix (Fin a) (Fin b) ℚ :=
  Matrix.of fun i j => X i j / (n : ℚ)

/-- Embeds `update_factor_estimates`: per layer,
`(eps*A + (1-eps)*(aaT/n), eps*G + (1-eps)*(ggT/n))`.  The source divides by
the accumulated count `n` with no guard, so a zero count on any layer is a
division-by-zero failure, modelled as `none`. -/
def update_factor_estimates (factors : Factors sz) (stats : Stats sz) (eps : ℚ) :
    Option (Factors sz) :=
  if ∀ i, (stats i).2.2 ≠ 0 then
    some (fun i =>
      (eps • (factors i).1 + (1 - eps) • matDivNat (stats i).1 (stats i).2.2,
       eps • (factors i).2 + (1 - eps) • matDivNat (stats i).2.1 (stats i).2.2))
  else none

/-! ### Computing and applying the preconditioner -/

/-- The value `np.linalg.inv` computes on a nonsingular matrix, written with
the adjugate so that it is executable. -/
def matInvAux {k : ℕ} (X : Matrix (Fin k) (Fin k) ℚ) : Matrix (Fin k) (Fin k) ℚ :=
  X.det⁻¹ • X.adjugate

/-- Embeds `np.linalg.inv`: fails (raises `LinAlgError`) on a singular
matrix, otherwise returns the inverse. -/
def npInv {k : ℕ} (X : Matrix (Fin k) (Fin k) ℚ) : Option (Matrix (Fin k) (Fin k) ℚ) :=
  if X.det = 0 then none else some (matInvAux X)

/-- Embeds `compute_precond`: per layer, `inv(A + lmbda*eye)` and
`inv(G + lmbda*eye)`; the whole call fails if any of the `2L` inversions
fails. -/
def compute_precond (fe : Factors sz) (lmbda : ℚ) : Option (Precond sz) :=
  if ∀ i, ((fe i).1 + lmbda • 1).det ≠ 0 ∧ ((fe i).2 + lmbda • 1).det ≠ 0 then
    some (fun i => (matInvAux ((fe i).1 + lmbda • 1), matInvAux ((fe i).2 + lmbda • 1)))
  else none

/-- Embeds `stack = lambda W, b: np.vstack((W, b))`: the bias becomes the
extra last row. -/
def stack {m n : ℕ} (W : Matrix (Fin m) (Fin n) ℚ) (b : Fin n → ℚ) :
    Matrix (Fin (m + 1)) (Fin n) ℚ :=
  Matrix.of fun i j => if h : (i : ℕ) < m then W ⟨i, h⟩ j else b j

/-- The weight part `Wb[:-1]` of `split`. -/
def splitW {m n : ℕ} (Wb : Matrix (Fin (m + 1)) (Fin n) ℚ) : Matrix (Fin m) (Fin n) ℚ :=
  Matrix.of fun i j => Wb i.castSucc j

/-- The bias part `Wb[-1]` of `split`. -/
def splitB {m n : ℕ} (Wb : Matrix (Fin (m + 1)) (Fin n) ℚ) : Fin n → ℚ :=
  fun j => Wb (Fin.last m) j

/-- Embeds `kronp = lambda Ainv, Ginv, Wb: np.dot(Ainv, np.dot(Wb, Ginv.T))`. -/
def kronp {k n : ℕ} (Ainv : Matrix (Fin k) (Fin k) ℚ) (Ginv : Matrix (Fin n) (Fin n) ℚ)
    (Wb : Matrix (Fin k) (Fin n) ℚ) : Matrix (Fin k) (Fin n) ℚ :=
  Ainv * (Wb * Ginv.transpose)

/-- Embeds `apply_preconditioner`: per layer, stack the weight and bias
gradients, apply the Kronecker-factored bilinear transform, split back. -/
def apply_preconditioner (precond : Precond sz) (gradient : Params sz) : Params sz :=
  fun i =>
    (splitW (kronp ((precond i).1) ((precond i).2) (stack (gradient i).1 (gradient i).2)),
     splitB (kronp ((precond i).1) ((precond i).2) (stack (gradient i).1 (gradient i).2)))

/-! ### Statistics collection -/

/-- Embeds `inputs[npr.choice(inputs.shape[0], size=num_samples)]`: the
random draw is abstracted as an explicit index oracle `choice`. -/
def sampleRows {B S n0 : ℕ} (inputs : Matrix (Fin B) (Fin n0) ℚ)
    (choice : Fin S → Fin B) : Matrix (Fin S) (Fin n0) ℚ :=
  Matrix.of fun s j => inputs (choice s) j

/-- Embeds `homog = lambda X: np.hstack((X, np.ones(X.shape[0])[:,None]))`:
append a constant ones column. -/
def homog {S m : ℕ} (X : Matrix (Fin S) (Fin m) ℚ) : Matrix (Fin S) (Fin (m + 1)) ℚ :=
  Matrix.of fun s j => if h : (j : ℕ) < m then X s ⟨j, h⟩ else 1

/-- Embeds `outer = lambda X: np.dot(X.T, X)`. -/
def outer {S m : ℕ} (X : Matrix (Fin S) (Fin m) ℚ) : Matrix (Fin m) (Fin m) ℚ :=
  X.transpose * X

/-- The type of the external `grad_and_aux(model_predictive_log_likelihood)`
oracle: from the sampled inputs it returns the per-layer probe-gradient
samples (`g_samples`, each `S × n`) and the per-layer activation samples
(`a_samples`, each `S × m`; the forward pass keeps the row count `S`). -/
abbrev GradFun {L : ℕ} (sz : Fin L → LayerShape) (S n0 : ℕ) : Type :=
  Matrix (Fin S) (Fin n0) ℚ →
    ((i : Fin L) → Matrix (Fin S) (Fin (sz i).n) ℚ) ×
    ((i : Fin L) → Matrix (Fin S) (Fin (sz i).m) ℚ)

/-- Embeds `collect_stats`: subsample the inputs, run the differentiation
oracle, and per layer return `(outer(homog(A)), outer(G), len(A))`, where
`len(A) = S` is the number of sampled rows. -/
def collect_stats {B S n0 : ℕ} (gradfun : GradFun sz S n0)
    (inputs : Matrix (Fin B) (Fin n0) ℚ) (choice : Fin S → Fin B) : Stats sz :=
  let sampled := sampleRows inputs choice
  let gsamples := (gradfun sampled).1
  let asamples := (gradfun sampled).2
  fun i => (outer (homog (asamples i)), outer (gsamples i), S)

/-! ### Flattening parameters -/

/-- Index set of the flattened parameter vector: one index per weight entry
and per bias entry of every layer. -/
abbrev FlatIdx {L : ℕ} (sz : Fin L → LayerShape) : Type :=
  (i : Fin L) × (Fin (sz i).m × Fin (sz i).n ⊕ Fin (sz i).n)

/-- The flattened parameter (or gradient, or momentum) vector. -/
abbrev FlatVec {L : ℕ} (sz : Fin L → LayerShape) : Type := FlatIdx sz → ℚ

/-- Modelled from the spec: `autograd.util.flatten` is not under `src/`; the
spec describes it as a bijective reshape of a `Parameters` value into one
numeric vector.  Each entry of the vector is the corresponding weight or
bias entry. -/
def flatten (x : Params sz) : FlatVec sz := fun p =>
  match p with
  | ⟨i, Sum.inl wj⟩ => (x i).1 wj.1 wj.2
  | ⟨i, Sum.inr j⟩ => (x i).2 j

/-- Modelled from the spec: the inverse mapping (`unflatten`) returned by
`autograd.util.flatten`, reading each weight and bias entry back out of the
flat vector. -/
def unflatten (v : FlatVec sz) : Params sz :=
  fun i => (fun a b => v ⟨i, Sum.inl (a, b)⟩, fun j => v ⟨i, Sum.inr j⟩)

/-! ### The optimization loop -/

/-- The three periodically scheduled events inside the `kfac` loop body. -/
inductive KEvent where
  | collect
  | reestimate
  | rebuild
deriving DecidableEq

/-- Rank of an event in the source order of the three `if` blocks of the
loop body. -/
def evRank : KEvent → ℕ
  | KEvent.collect => 0
  | KEvent.reestimate => 1
  | KEvent.rebuild => 2

/-- The scalar/scheduling arguments of `kfac`. -/
structure KfacConfig where
  step_size : ℚ
  num_iters : ℕ
  sample_period : ℕ
  reestimate_period : ℕ
  update_precond_period : ℕ
  lmbda : ℚ
  eps : ℚ
  mu : ℚ
deriving DecidableEq

/-- The loop state of `kfac`: current parameters, their flattened form, the
momentum vector, and the statistics / factor / preconditioner bookkeeping. -/
structure KState {L : ℕ} (sz : Fin L → LayerShape) where
  params : Params sz
  flat_params : FlatVec sz
  momentum : FlatVec sz
  stats : Stats sz
  factors : Factors sz
  precond : Precond sz
deriving DecidableEq

/-- The external `value_and_grad(objective)` oracle: the gradient of the
objective at the current parameters and iteration index (the scalar value is
unused by the loop). -/
abbrev GradOracle {L : ℕ} (sz : Fin L → LayerShape) : Type := ℕ → Params sz → Params sz

/-- Oracle producing `collect_stats(params, get_batch(i), num_samples)`:
the minibatch fetch, the random draws and the differentiation are all
behind it. -/
abbrev StatsOracle {L : ℕ} (sz : Fin L → LayerShape) : Type := ℕ → Params sz → Stats sz

/-- Initialization of `kfac` before the loop: zero statistics, identity
factor estimates, preconditioner computed from them, flattened parameters,
zero momentum. -/
def kfacInit (cfg : KfacConfig) (init_params : Params sz) : Option (KState sz) :=
  (compute_precond (init_factor_estimates sz) cfg.lmbda).map fun p =>
    { params := init_params
      flat_params := flatten init_params
      momentum := 0
      stats := init_stats sz
      factors := init_factor_estimates sz
      precond := p }

/-- Loop phase 1: `if (i+1) % sample_period == 0`, collect and accumulate
statistics. -/
def phase1 (cfg : KfacConfig) (so : StatsOracle sz) (i : ℕ) (st : KState sz) : KState sz :=
  if (i + 1) % cfg.sample_period = 0 then
    { st with stats := update_stats st.stats (so i st.params) }
  else st

/-- Loop phase 2: `if (i+1) % reestimate_period == 0`, smooth the statistics
into the factor estimates and reset the statistics. -/
def phase2 (cfg : KfacConfig) (i : ℕ) (st : KState sz) : Option (KState sz) :=
  if (i + 1) % cfg.reestimate_period = 0 then
    (update_factor_estimates st.factors st.stats cfg.eps).map fun f =>
      { st with factors := f, stats := init_stats sz }
  else some st

/-- Loop phase 3: `if (i+1) % update_precond_period == 0`, rebuild the
preconditioner from the current factor estimates. -/
def phase3 (cfg : KfacConfig) (i : ℕ) (st : KState sz) : Option (KState sz) :=
  if (i + 1) % cfg.update_precond_period = 0 then
    (compute_precond st.factors cfg.lmbda).map fun p => { st with precond := p }
  else some st

/-- Loop phase 4: apply the preconditioner to the gradient, flatten it, and
perform the momentum update
`momentum = mu*momentum - (1-mu)*natgrad; flat_params += step_size*momentum`,
then unflatten back into `params`. -/
def phase4 (cfg : KfacConfig) (gradient : Params sz) (st : KState sz) : KState sz :=
  let natgrad := flatten (apply_preconditioner st.precond gradient)
  let momentum := cfg.mu • st.momentum - (1 - cfg.mu) • natgrad
  let flat := st.flat_params + cfg.step_size • momentum
  { st with momentum := momentum, flat_params := flat, params := unflatten flat }

/-- The events the loop body fires at iteration `i`, in source order:
statistics collection, then factor re-estimation, then preconditioner
rebuild. -/
def iterEvents (cfg : KfacConfig) (i : ℕ) : List KEvent :=
  (if (i + 1) % cfg.sample_period = 0 then [KEvent.collect] else []) ++
  (if (i + 1) % cfg.reestimate_period = 0 then [KEvent.reestimate] else []) ++
  (if (i + 1) % cfg.update_precond_period = 0 then [KEvent.rebuild] else [])

/-- One iteration of the `kfac` loop body (the gradient is evaluated at the
iteration's starting parameters, before any bookkeeping), returning the new
state and the iteration-tagged events that fired. -/
def kfacStep (cfg : KfacConfig) (go : GradOracle sz) (so : StatsOracle sz)
    (i : ℕ) (st : KState sz) : Option (KState sz × List (ℕ × KEvent)) :=
  let gradient := go i st.params
  (phase2 cfg i (phase1 cfg so i st)).bind fun st2 =>
    (phase3 cfg i st2).map fun st3 =>
      (phase4 cfg gradient st3, (iterEvents cfg i).map fun e => (i, e))

/-- The state after `n` iterations of the `kfac` loop, together with the
accumulated event trace. -/
def kfacRun (cfg : KfacConfig) (go : GradOracle sz) (so : StatsOracle sz)
    (init_params : Params sz) : ℕ → Option (KState sz × List (ℕ × KEvent))
  | 0 => (kfacInit cfg init_params).map fun st => (st, [])
  | n + 1 =>
    (kfacRun cfg go so init_params n).bind fun p =>
      (kfacStep cfg go so n p.1).map fun q => (q.1, p.2 ++ q.2)

/-- Embeds `kfac`: the loop runs exactly `num_iters` iterations, with no
early stopping. -/
def kfac (cfg : KfacConfig) (go : GradOracle sz) (so : StatsOracle sz)
    (init_params : Params sz) : Option (KState sz × List (ℕ × KEvent)) :=
  kfacRun cfg go so init_params cfg.num_iters

/-- Number of occurrences of an event in a trace, ignoring iteration tags. -/
def countEvents (tr : List (ℕ × KEvent)) (e : KEvent) : ℕ :=
  (tr.filter fun p => p.2 == e).length

/-! ### Helper lemmas -/

/-- `matInvAux` is a left inverse on nonsingular matrices. -/
theorem matInvAux_mul {k : ℕ} (X : Matrix (Fin k) (Fin k) ℚ) (h : X.det ≠ 0) :
    matInvAux X * X = 1 := by
  unfold matInvAux
  rw [Matrix.smul_mul, Matrix.adjugate_mul, smul_smul, inv_mul_cancel₀ h, one_smul]

/-- `matInvAux` is a right inverse on nonsingular matrices. -/
theorem mul_matInvAux {k : ℕ} (X : Matrix (Fin k) (Fin k) ℚ) (h : X.det ≠ 0) :
    X * matInvAux X = 1 := by
  unfold matInvAux
  rw [Matrix.mul_smul, Matrix.mul_adjugate, smul_smul, inv_mul_cancel₀ h, one_smul]

/-- Any right inverse of a nonsingular matrix equals `matInvAux`. -/
theorem matInvAux_eq_of_mul_eq_one {k : ℕ} (X Y : Matrix (Fin k) (Fin k) ℚ)
    (h : X.det ≠ 0) (hY : X * Y = 1) : matInvAux X = Y := by
  calc matInvAux X = matInvAux X * (X * Y) := by rw [hY, Matrix.mul_one]
    _ = matInvAux X * X * Y := by rw [Matrix.mul_assoc]
    _ = Y := by rw [matInvAux_mul X h, Matrix.one_mul]

/-- Splitting off the weight rows undoes stacking. -/
theorem splitW_stack {m n : ℕ} (W : Matrix (Fin m) (Fin n) ℚ) (b : Fin n → ℚ) :
    splitW (stack W b) = W := by
  funext i j
  show stack W b i.castSucc j = W i j
  unfold stack
  rw [Matrix.of_apply, dif_pos (by simp : ((i.castSucc : Fin (m + 1)) : ℕ) < m)]
  rfl

/-- Splitting off the last row undoes stacking. -/
theorem splitB_stack {m n : ℕ} (W : Matrix (Fin m) (Fin n) ℚ) (b : Fin n → ℚ) :
    splitB (stack W b) = b := by
  funext j
  show stack W b (Fin.last m) j = b j
  unfold stack
  rw [Matrix.of_apply, dif_neg (by simp)]

/-- The Kronecker-factored transform with identity inverses is the
identity. -/
theorem kronp_one_one {k n : ℕ} (Wb : Matrix (Fin k) (Fin n) ℚ) :
    kronp 1 1 Wb = Wb := by
  unfold kronp
  rw [Matrix.transpose_one, Matrix.mul_one, Matrix.one_mul]

/-- A one-layer network shape. -/
def sz1 (m n : ℕ) : Fin 1 → LayerShape := fun _ => ⟨m, n⟩

/-- The identity preconditioner for a one-layer network. -/
def idPrecond (m n : ℕ) : Precond (sz1 m n) := fun _ => (1, 1)

/-- A one-layer gradient (or parameter) value. -/
def oneLayerGrad {m n : ℕ} (dW : Matrix (Fin m) (Fin n) ℚ) (db : Fin n → ℚ) :
    Params (sz1 m n) := fun _ => (dW, db)

/-! ### Claims about the algebraic core -/

/-- Claim C3: for a single-layer gradient `(dW, db)` and a preconditioner
whose `Ainv` and `Ginv` are identity matrices, `apply_preconditioner`
returns `(dW, db)` unchanged; and splitting the stacked matrix back into
its first rows and last row is the exact inverse of stacking. -/
theorem claim3_identity_preconditioner {m n : ℕ} (dW : Matrix (Fin m) (Fin n) ℚ)
    (db : Fin n → ℚ) :
    apply_preconditioner (idPrecond m n) (oneLayerGrad dW db) = oneLayerGrad dW db ∧
    splitW (stack dW db) = dW ∧ splitB (stack dW db) = db := by
  refine ⟨?_, splitW_stack dW db, splitB_stack dW db⟩
  funext i
  show (splitW (kronp 1 1 (stack dW db)), splitB (kronp 1 1 (stack dW db))) = (dW, db)
  rw [kronp_one_one, splitW_stack, splitB_stack]

/-- Claim C5: `update_stats` combines per-layer triples by elementwise
addition of both matrices and the count: folding `s1` then `s2` into
`init_stats` equals a single fold of the summed statistics, and the
combination is commutative and associative. -/
theorem claim5_update_stats_additive (s1 s2 s3 : Stats sz) :
    update_stats (update_stats (init_stats sz) s1) s2 =
      update_stats (init_stats sz)
        (fun i => ((s1 i).1 + (s2 i).1, (s1 i).2.1 + (s2 i).2.1, (s1 i).2.2 + (s2 i).2.2)) ∧
    update_stats s1 s2 = update_stats s2 s1 ∧
    update_stats (update_stats s1 s2) s3 = update_stats s1 (update_stats s2 s3) := by
  refine ⟨?_, ?_, ?_⟩ <;> funext i <;>
    simp [update_stats, init_stats, Prod.ext_iff, add_comm, add_assoc, add_left_comm]

/-- Claim C8: flattening then unflattening recovers any `Parameters` value
exactly (and conversely), and the loop's parameter update ends with exactly
`unflatten` of the updated flat vector. -/
theorem claim8_flatten_unflatten (x : Params sz) (v : FlatVec sz)
    (cfg : KfacConfig) (g : Params sz) (st : KState sz) :
    unflatten (flatten x) = x ∧ flatten (unflatten v) = v ∧
    (phase4 cfg g st).params = unflatten (phase4 cfg g st).flat_params := by
  refine ⟨?_, ?_, rfl⟩
  · funext i
    rfl
  · funext p
    rcases p with ⟨i, wj | j⟩ <;> rfl

/-- Claim C4: with `eps = 0`, `update_factor_estimates` returns exactly
`(AA/n, GG/n)` per layer, independently of the previous factor values; in
general it returns `eps*old + (1-eps)*(raw/n)` per factor.  The counts must
be nonzero for the divisions to succeed. -/
theorem claim4_factor_reestimation (factors factors' : Factors sz) (stats : Stats sz)
    (eps : ℚ) (h : ∀ i, (stats i).2.2 ≠ 0) :
    update_factor_estimates factors stats 0 =
      some (fun i => (matDivNat (stats i).1 (stats i).2.2,
                      matDivNat (stats i).2.1 (stats i).2.2)) ∧
    update_factor_estimates factors stats 0 = update_factor_estimates factors' stats 0 ∧
    update_factor_estimates factors stats eps =
      some (fun i =>
        (eps • (factors i).1 + (1 - eps) • matDivNat (stats i).1 (stats i).2.2,
         eps • (factors i).2 + (1 - eps) • matDivNat (stats i).2.1 (stats i).2.2)) := by
  unfold update_factor_estimates
  simp only [if_pos h]
  refine ⟨?_, ?_, trivial⟩
  · congr 1
    funext i
    simp
  · congr 1
    funext i
    simp

/-- Claim C7: `update_factor_estimates` divides by each layer's count with
no guard, so a zero count on any layer is a division-by-zero failure; with
every count positive the computation is well defined and the error branch
is unreachable. -/
theorem claim7_zero_count_guard (factors : Factors sz) (stats : Stats sz) (eps : ℚ) :
    ((∃ i, (stats i).2.2 = 0) → update_factor_estimates factors stats eps = none) ∧
    ((∀ i, (stats i).2.2 ≠ 0) → (update_factor_estimates factors stats eps).isSome = true) := by
  constructor
  · intro hz
    obtain ⟨i, hi⟩ := hz
    unfold update_factor_estimates
    rw [if_neg (fun hall => hall i hi)]
  · intro h
    unfold update_factor_estimates
    rw [if_pos h]
    rfl

/-- Claim C2: whenever `compute_precond` succeeds, it returns per layer the
two-sided inverses of `A + lmbda*I` and of `G + lmbda*I`. -/
theorem claim2_precond_inverts (fe : Factors sz) (lmbda : ℚ) (P : Precond sz)
    (h : compute_precond fe lmbda = some P) :
    ∀ i, (P i).1 * ((fe i).1 + lmbda • 1) = 1 ∧ ((fe i).1 + lmbda • 1) * (P i).1 = 1 ∧
         (P i).2 * ((fe i).2 + lmbda • 1) = 1 ∧ ((fe i).2 + lmbda • 1) * (P i).2 = 1 := by
  unfold compute_precond at h
  by_cases hd : ∀ j, ((fe j).1 + lmbda • 1).det ≠ 0 ∧ ((fe j).2 + lmbda • 1).det ≠ 0
  · rw [if_pos hd] at h
    injection h with h
    subst h
    intro i
    exact ⟨matInvAux_mul _ (hd i).1, mul_matInvAux _ (hd i).1,
           matInvAux_mul _ (hd i).2, mul_matInvAux _ (hd i).2⟩
  · rw [if_neg hd] at h
    exact absurd h (by simp)

/-! ### Concrete witnesses for the hypotheses of C2, C4, C7 -/

/-- A concrete one-layer statistics collection with identity matrices and
count 1. -/
def wStats : Stats (sz1 0 1) := fun _ => (1, 1, 1)

/-- A concrete one-layer statistics collection with count 0. -/
def wStatsZero : Stats (sz1 0 1) := fun _ => (0, 0, 0)

/-- A concrete one-layer factor-estimate list (identity factors). -/
def wFactors : Factors (sz1 0 1) := fun _ => (1, 1)

/-- A different concrete one-layer factor-estimate list (zero factors). -/
def wFactors2 : Factors (sz1 0 1) := fun _ => (0, 0)

/-- Witness for C4 at a concrete one-layer input with count 1 and
`eps = 1/2`. -/
theorem claim4_factor_reestimation_witness :
    (∀ i, (wStats i).2.2 ≠ 0) ∧
    (update_factor_estimates wFactors wStats 0 =
      some (fun i => (matDivNat (wStats i).1 (wStats i).2.2,
                      matDivNat (wStats i).2.1 (wStats i).2.2)) ∧
     update_factor_estimates wFactors wStats 0 = update_factor_estimates wFactors2 wStats 0 ∧
     update_factor_estimates wFactors wStats (1/2) =
      some (fun i =>
        ((1/2 : ℚ) • (wFactors i).1 + ((1 : ℚ) - 1/2) • matDivNat (wStats i).1 (wStats i).2.2,
         (1/2 : ℚ) • (wFactors i).2 + ((1 : ℚ) - 1/2) • matDivNat (wStats i).2.1 (wStats i).2.2))) :=
  ⟨by decide, claim4_factor_reestimation wFactors wFactors2 wStats (1/2) (by decide)⟩

/-- Witness for C7: a zero-count layer makes the call fail, while the
all-positive-count call succeeds. -/
theorem claim7_zero_count_guard_witness :
    (∃ i, (wStatsZero i).2.2 = 0) ∧
    update_factor_estimates wFactors wStatsZero (1/2) = none ∧
    (∀ i, (wStats i).2.2 ≠ 0) ∧
    (update_factor_estimates wFactors wStats (1/2)).isSome = true :=
  ⟨⟨0, rfl⟩, (claim7_zero_count_guard wFactors wStatsZero (1/2)).1 ⟨0, rfl⟩,
   by decide, (claim7_zero_count_guard wFactors wStats (1/2)).2 (by decide)⟩

/-- Witness for C2 at concrete identity factors and `lmbda = 0`. -/
theorem claim2_precond_inverts_witness :
    compute_precond wFactors 0 = some (idPrecond 0 1) ∧
    (∀ i, ((idPrecond 0 1) i).1 * ((wFactors i).1 + (0 : ℚ) • 1) = 1 ∧
          ((wFactors i).1 + (0 : ℚ) • 1) * ((idPrecond 0 1) i).1 = 1 ∧
          ((idPrecond 0 1) i).2 * ((wFactors i).2 + (0 : ℚ) • 1) = 1 ∧
          ((wFactors i).2 + (0 : ℚ) • 1) * ((idPrecond 0 1) i).2 = 1) := by
  have hdet : ∀ i : Fin 1, ((wFactors i).1 + (0 : ℚ) • 1).det ≠ 0 ∧
      ((wFactors i).2 + (0 : ℚ) • 1).det ≠ 0 := by
    intro i
    constructor <;> simp [wFactors]
  have h : compute_precond wFactors 0 = some (idPrecond 0 1) := by
    unfold compute_precond
    rw [if_pos hdet]
    congr 1
    funext i
    simp [wFactors, idPrecond, matInvAux, Matrix.adjugate_one]
  exact ⟨h, claim2_precond_inverts wFactors 0 (idPrecond 0 1) h⟩

/-- Claim C9: per layer, `collect_stats` returns the Gram matrix of the
homogenized activation samples (ones column appended), the Gram matrix of
the probe-gradient samples, and the sample count `S`; the rows fed to the
oracle are the rows of `inputs` selected by the draw `choice`. -/
theorem claim9_collect_stats {B S n0 : ℕ} (gradfun : GradFun sz S n0)
    (inputs : Matrix (Fin B) (Fin n0) ℚ) (choice : Fin S → Fin B) (i : Fin L)
    (j k : Fin ((sz i).m + 1)) (j2 k2 : Fin (sz i).n) (s : Fin S) (c : Fin n0) :
    ((collect_stats gradfun inputs choice) i).1 j k =
      (∑ t : Fin S,
        (if h : (j : ℕ) < (sz i).m then (gradfun (sampleRows inputs choice)).2 i t ⟨j, h⟩ else 1) *
        (if h : (k : ℕ) < (sz i).m then (gradfun (sampleRows inputs choice)).2 i t ⟨k, h⟩ else 1)) ∧
    ((collect_stats gradfun inputs choice) i).2.1 j2 k2 =
      (∑ t : Fin S, (gradfun (sampleRows inputs choice)).1 i t j2 *
        (gradfun (sampleRows inputs choice)).1 i t k2) ∧
    ((collect_stats gradfun inputs choice) i).2.2 = S ∧
    sampleRows inputs choice s c = inputs (choice s) c := by
  refine ⟨?_, ?_, rfl, rfl⟩
  · simp [collect_stats, outer, homog, Matrix.mul_apply]
  · simp [collect_stats, outer, Matrix.mul_apply]

/-! ### Loop phase bookkeeping lemmas -/

/-- Phase 1 only touches the statistics field. -/
theorem phase1_preserves (cfg : KfacConfig) (so : StatsOracle sz) (i : ℕ) (st : KState sz) :
    (phase1 cfg so i st).params = st.params ∧
    (phase1 cfg so i st).flat_params = st.flat_params ∧
    (phase1 cfg so i st).momentum = st.momentum ∧
    (phase1 cfg so i st).factors = st.factors ∧
    (phase1 cfg so i st).precond = st.precond := by
  unfold phase1
  split <;> exact ⟨rfl, rfl, rfl, rfl, rfl⟩

/-- Phase 2 only touches the factors and statistics fields. -/
theorem phase2_preserves (cfg : KfacConfig) (i : ℕ) (st st2 : KState sz)
    (h : phase2 cfg i st = some st2) :
    st2.params = st.params ∧ st2.flat_params = st.flat_params ∧
    st2.momentum = st.momentum ∧ st2.precond = st.precond := by
  unfold phase2 at h
  split at h
  · rcases Option.map_eq_some'.mp h with ⟨f, _, hst⟩
    subst hst
    exact ⟨rfl, rfl, rfl, rfl⟩
  · injection h with h
    subst h
    exact ⟨rfl, rfl, rfl, rfl⟩

/-- Phase 3 only touches the preconditioner field. -/
theorem phase3_preserves (cfg : KfacConfig) (i : ℕ) (st st3 : KState sz)
    (h : phase3 cfg i st = some st3) :
    st3.params = st.params ∧ st3.flat_params = st.flat_params ∧
    st3.momentum = st.momentum ∧ st3.factors = st.factors ∧ st3.stats = st.stats := by
  unfold phase3 at h
  split at h
  · rcases Option.map_eq_some'.mp h with ⟨p, _, hst⟩
    subst hst
    exact ⟨rfl, rfl, rfl, rfl, rfl⟩
  · injection h with h
    subst h
    exact ⟨rfl, rfl, rfl, rfl, rfl⟩

/-- Phase 3 is the identity when the rebuild period has not elapsed. -/
theorem phase3_of_not_period (cfg : KfacConfig) (i : ℕ) (st : KState sz)
    (h : (i + 1) % cfg.update_precond_period ≠ 0) : phase3 cfg i st = some st := by
  unfold phase3
  exact if_neg h

/-- A successful `kfacStep` decomposes into its four phases. -/
theorem kfacStep_eq (cfg : KfacConfig) (go : GradOracle sz) (so : StatsOracle sz)
    (i : ℕ) (st : KState sz) (p : KState sz × List (ℕ × KEvent))
    (h : kfacStep cfg go so i st = some p) :
    ∃ st2 st3, phase2 cfg i (phase1 cfg so i st) = some st2 ∧
      phase3 cfg i st2 = some st3 ∧
      p = (phase4 cfg (go i st.params) st3, (iterEvents cfg i).map fun e => (i, e)) := by
  unfold kfacStep at h
  cases h2 : phase2 cfg i (phase1 cfg so i st) with
  | none =>
    rw [h2] at h
    exact absurd h (by simp)
  | some st2 =>
    rw [h2] at h
    simp only [Option.some_bind] at h
    rcases Option.map_eq_some'.mp h with ⟨st3, h3, hst⟩
    exact ⟨st2, st3, rfl, h3, hst.symm⟩

/-- The trace of a successful run is determined by the three periods: it is
the concatenation over iterations of the events fired by the loop body. -/
theorem kfacRun_trace (cfg : KfacConfig) (go : GradOracle sz) (so : StatsOracle sz)
    (ip : Params sz) :
    ∀ n st tr, kfacRun cfg go so ip n = some (st, tr) →
      tr = (List.range n).flatMap fun i => (iterEvents cfg i).map fun e => (i, e) := by
  intro n
  induction n with
  | zero =>
    intro st tr h
    unfold kfacRun at h
    rcases Option.map_eq_some'.mp h with ⟨st0, _, heq⟩
    cases heq
    rfl
  | succ n ih =>
    intro st tr h
    unfold kfacRun at h
    cases hr : kfacRun cfg go so ip n with
    | none =>
      rw [hr] at h
      exact absurd h (by simp)
    | some p =>
      rw [hr] at h
      simp only [Option.some_bind] at h
      rcases Option.map_eq_some'.mp h with ⟨q, hq, heq⟩
      obtain ⟨st2, st3, _, _, hqe⟩ := kfacStep_eq cfg go so n p.1 q hq
      cases heq
      subst hqe
      rw [List.range_succ, List.flatMap_append, ih p.1 p.2 hr]
      simp

/-! ### Claim C1: the loop schedule -/

/-- The configuration of the scheduling scenario: `sample_period = 2`,
`reestimate_period = 4`, `update_precond_period = 4`, `num_iters = 8`; the
scalar hyperparameters are arbitrary. -/
def c1Config (step lm epsv mu : ℚ) : KfacConfig :=
  ⟨step, 8, 2, 4, 4, lm, epsv, mu⟩

/-- Claim C1: a `kfac` run with `sample_period = 2`, `reestimate_period = 4`,
`update_precond_period = 4` and `num_iters = 8` fires exactly 4 statistics
collections, exactly 2 factor re-estimations and exactly 2 preconditioner
rebuilds, and within any shared iteration the collection precedes the
re-estimation, which precedes the rebuild. -/
theorem claim1_loop_schedule (step lm epsv mu : ℚ) (go : GradOracle sz)
    (so : StatsOracle sz) (ip : Params sz) (st : KState sz) (tr : List (ℕ × KEvent))
    (h : kfac (c1Config step lm epsv mu) go so ip = some (st, tr)) :
    countEvents tr KEvent.collect = 4 ∧ countEvents tr KEvent.reestimate = 2 ∧
    countEvents tr KEvent.rebuild = 2 ∧
    tr.Pairwise fun p q => p.1 = q.1 → evRank p.2 < evRank q.2 := by
  have htr := kfacRun_trace (c1Config step lm epsv mu) go so ip 8 st tr h
  subst htr
  have he : ∀ i, iterEvents (c1Config step lm epsv mu) i = iterEvents (c1Config 0 0 0 0) i :=
    fun _ => rfl
  simp only [he]
  refine ⟨?_, ?_, ?_, ?_⟩ <;> decide

/-! ### Concrete zero-layer witness runs -/

/-- The empty layer-shape family (a network with no layers), on which every
per-layer operation succeeds trivially; used as a concrete execution of the
full loop. -/
def sz0 : Fin 0 → LayerShape := fun i => i.elim0

/-- The empty parameter value. -/
def params0 : Params sz0 := fun i => i.elim0

/-- The gradient oracle for the empty network. -/
def go0 : GradOracle sz0 := fun _ _ => params0

/-- The statistics oracle for the empty network. -/
def so0 : StatsOracle sz0 := fun _ _ i => i.elim0

/-- The empty flat vector. -/
def emptyVec : FlatVec sz0 := fun p => p.1.elim0

/-- The concrete 8-iteration scheduling run on the empty network
succeeds. -/
theorem c1Run_isSome : (kfac (c1Config 1 1 0 (1/2)) go0 so0 params0).isSome = true := by
  decide

/-- The result of the concrete scheduling run. -/
def c1Result : KState sz0 × List (ℕ × KEvent) :=
  (kfac (c1Config 1 1 0 (1/2)) go0 so0 params0).get c1Run_isSome

/-- Witness for C1: a concrete successful 8-iteration run (on the empty
network) realizes the hypothesis. -/
theorem claim1_loop_schedule_witness :
    countEvents c1Result.2 KEvent.collect = 4 ∧
    countEvents c1Result.2 KEvent.reestimate = 2 ∧
    countEvents c1Result.2 KEvent.rebuild = 2 ∧
    c1Result.2.Pairwise fun p q => p.1 = q.1 → evRank p.2 < evRank q.2 :=
  claim1_loop_schedule 1 1 0 (1/2) go0 so0 params0 c1Result.1 c1Result.2
    (Option.some_get c1Run_isSome).symm

/-! ### Claim C6: the momentum update -/

/-- Claim C6: momentum starts at the zero vector, and on every iteration it
becomes `mu*momentum - (1-mu)*natgrad` where `natgrad` is the flattened
preconditioned gradient (computed with the iteration's current, possibly
just rebuilt, preconditioner), after which the flat parameters move by
`step_size` times the new momentum.  The recurrence holds at every
iteration, so momentum is never reset. -/
theorem claim6_momentum_update (cfg : KfacConfig) (go : GradOracle sz)
    (so : StatsOracle sz) (ip : Params sz) :
    (∀ st tr, kfacRun cfg go so ip 0 = some (st, tr) → st.momentum = 0) ∧
    (∀ i st tr st' tr', kfacRun cfg go so ip i = some (st, tr) →
        kfacRun cfg go so ip (i + 1) = some (st', tr') →
        st'.momentum = cfg.mu • st.momentum -
          (1 - cfg.mu) • flatten (apply_preconditioner st'.precond (go i st.params)) ∧
        st'.flat_params = st.flat_params + cfg.step_size • st'.momentum) := by
  constructor
  · intro st tr h
    unfold kfacRun kfacInit at h
    rcases Option.map_eq_some'.mp h with ⟨st0, hst0, heq⟩
    rcases Option.map_eq_some'.mp hst0 with ⟨p, _, hst1⟩
    subst hst1
    cases heq
    rfl
  · intro i st tr st' tr' h1 h2
    unfold kfacRun at h2
    rw [h1] at h2
    simp only [Option.some_bind] at h2
    rcases Option.map_eq_some'.mp h2 with ⟨q, hq, heq⟩
    obtain ⟨st2, st3, hp2, hp3, hqe⟩ := kfacStep_eq cfg go so i st q hq
    subst hqe
    cases heq
    obtain ⟨-, hp22, hp23, -⟩ := phase2_preserves cfg i (phase1 cfg so i st) st2 hp2
    obtain ⟨-, hp32, hp33, -, -⟩ := phase3_preserves cfg i st2 st3 hp3
    obtain ⟨-, h12, h13, -, -⟩ := phase1_preserves cfg so i st
    constructor
    · show cfg.mu • st3.momentum -
          (1 - cfg.mu) • flatten (apply_preconditioner st3.precond (go i st.params)) =
        cfg.mu • st.momentum -
          (1 - cfg.mu) • flatten (apply_preconditioner st3.precond (go i st.params))
      rw [hp33, hp23, h13]
    · show st3.flat_params + cfg.step_size • (phase4 cfg (go i st.params) st3).momentum =
        st.flat_params + cfg.step_size • (phase4 cfg (go i st.params) st3).momentum
      rw [hp32, hp22, h12]

/-- A simple configuration with all periods 1. -/
def c6Config : KfacConfig := ⟨1, 1, 1, 1, 1, 1, 0, 1/2⟩

/-- The concrete run of the C6 witness succeeds at 0 iterations. -/
theorem c6Run0_isSome : (kfacRun c6Config go0 so0 params0 0).isSome = true := by decide

/-- The concrete run of the C6 witness succeeds at 1 iteration. -/
theorem c6Run1_isSome : (kfacRun c6Config go0 so0 params0 1).isSome = true := by decide

/-- The state and trace after 0 iterations of the C6 witness run. -/
def c6R0 : KState sz0 × List (ℕ × KEvent) :=
  (kfacRun c6Config go0 so0 params0 0).get c6Run0_isSome

/-- The state and trace after 1 iteration of the C6 witness run. -/
def c6R1 : KState sz0 × List (ℕ × KEvent) :=
  (kfacRun c6Config go0 so0 params0 1).get c6Run1_isSome

/-- Witness for C6: a concrete successful step realizes both hypotheses. -/
theorem claim6_momentum_update_witness :
    c6R0.1.momentum = 0 ∧
    c6R1.1.momentum = c6Config.mu • c6R0.1.momentum -
      (1 - c6Config.mu) • flatten (apply_preconditioner c6R1.1.precond (go0 0 c6R0.1.params)) ∧
    c6R1.1.flat_params = c6R0.1.flat_params + c6Config.step_size • c6R1.1.momentum :=
  ⟨(claim6_momentum_update c6Config go0 so0 params0).1 c6R0.1 c6R0.2
      (Option.some_get c6Run0_isSome).symm,
   (claim6_momentum_update c6Config go0 so0 params0).2 0 c6R0.1 c6R0.2 c6R1.1 c6R1.2
      (Option.some_get c6Run0_isSome).symm (Option.some_get c6Run1_isSome).symm⟩

/-! ### Claim C10: the preconditioner before the first rebuild -/

/-- The preconditioner value `(1/(1+lmbda))*I` per factor that
`compute_precond` yields on identity factor estimates. -/
def scaledIdPrecond (sz : Fin L → LayerShape) (lmbda : ℚ) : Precond sz :=
  fun _ => ((1 + lmbda)⁻¹ • 1, (1 + lmbda)⁻¹ • 1)

/-- On identity factor estimates, `compute_precond` succeeds and returns
`(1/(1+lmbda))*I` for both factors of every layer. -/
theorem compute_precond_init (sz : Fin L → LayerShape) (lmbda : ℚ) (hl : 1 + lmbda ≠ 0) :
    compute_precond (init_factor_estimates sz) lmbda = some (scaledIdPrecond sz lmbda) := by
  have key : ∀ k : ℕ, ((1 : Matrix (Fin k) (Fin k) ℚ) + lmbda • 1).det ≠ 0 ∧
      matInvAux ((1 : Matrix (Fin k) (Fin k) ℚ) + lmbda • 1) = (1 + lmbda)⁻¹ • 1 := by
    intro k
    have h1 : (1 : Matrix (Fin k) (Fin k) ℚ) + lmbda • 1 = (1 + lmbda) • 1 := by
      rw [add_smul, one_smul]
    have hdet : ((1 : Matrix (Fin k) (Fin k) ℚ) + lmbda • 1).det ≠ 0 := by
      rw [h1, Matrix.det_smul, Matrix.det_one]
      simpa using pow_ne_zero (Fintype.card (Fin k)) hl
    refine ⟨hdet, matInvAux_eq_of_mul_eq_one _ _ hdet ?_⟩
    rw [h1, Matrix.mul_smul, Matrix.smul_mul, Matrix.one_mul, smul_smul,
        inv_mul_cancel₀ hl, one_smul]
  have hc : ∀ i, (((init_factor_estimates sz) i).1 + lmbda • 1).det ≠ 0 ∧
      (((init_factor_estimates sz) i).2 + lmbda • 1).det ≠ 0 :=
    fun i => ⟨(key _).1, (key _).1⟩
  unfold compute_precond
  rw [if_pos hc]
  congr 1
  funext i
  show (matInvAux ((1 : ActMat (sz i)) + lmbda • 1),
        matInvAux ((1 : GradMat (sz i)) + lmbda • 1)) = _
  rw [(key _).2, (key _).2]
  rfl

/-- The Kronecker transform with both inverses a scalar multiple of the
identity scales the stacked gradient by the square of that scalar. -/
theorem kronp_smul_one {k n : ℕ} (c : ℚ) (Wb : Matrix (Fin k) (Fin n) ℚ) :
    kronp (c • 1) (c • 1) Wb = c ^ 2 • Wb := by
  unfold kronp
  rw [Matrix.transpose_smul, Matrix.transpose_one, Matrix.mul_smul, Matrix.mul_one,
      Matrix.mul_smul, Matrix.smul_mul, Matrix.one_mul, smul_smul, sq]

/-- Splitting commutes with scalar multiplication (weight part). -/
theorem splitW_smul {m n : ℕ} (c : ℚ) (M : Matrix (Fin (m + 1)) (Fin n) ℚ) :
    splitW (c • M) = c • splitW M := rfl

/-- Splitting commutes with scalar multiplication (bias part). -/
theorem splitB_smul {m n : ℕ} (c : ℚ) (M : Matrix (Fin (m + 1)) (Fin n) ℚ) :
    splitB (c • M) = c • splitB M := rfl

/-- Before the rebuild period elapses, the run's preconditioner still holds
its initial value. -/
theorem kfacRun_precond_of_lt (cfg : KfacConfig) (go : GradOracle sz) (so : StatsOracle sz)
    (ip : Params sz) (hl : 1 + cfg.lmbda ≠ 0) :
    ∀ n, n < cfg.update_precond_period → ∀ st tr, kfacRun cfg go so ip n = some (st, tr) →
      st.precond = scaledIdPrecond sz cfg.lmbda := by
  intro n
  induction n with
  | zero =>
    intro _ st tr h
    unfold kfacRun kfacInit at h
    rcases Option.map_eq_some'.mp h with ⟨st0, hst0, heq⟩
    rcases Option.map_eq_some'.mp hst0 with ⟨p, hp, hst1⟩
    rw [compute_precond_init sz cfg.lmbda hl] at hp
    injection hp with hp
    subst hst1
    cases heq
    exact hp.symm
  | succ n ih =>
    intro hlt st tr h
    unfold kfacRun at h
    cases hr : kfacRun cfg go so ip n with
    | none =>
      rw [hr] at h
      exact absurd h (by simp)
    | some p =>
      rw [hr] at h
      simp only [Option.some_bind] at h
      rcases Option.map_eq_some'.mp h with ⟨q, hq, heq⟩
      obtain ⟨st2, st3, hp2, hp3, hqe⟩ := kfacStep_eq cfg go so n p.1 q hq
      subst hqe
      cases heq
      have hnp : (n + 1) % cfg.update_precond_period ≠ 0 := by
        rw [Nat.mod_eq_of_lt hlt]
        exact Nat.succ_ne_zero n
      rw [phase3_of_not_period cfg n st2 hnp] at hp3
      injection hp3 with hp3
      subst hp3
      show st2.precond = scaledIdPrecond sz cfg.lmbda
      rw [(phase2_preserves cfg n (phase1 cfg so n p.1) st2 hp2).2.2.2,
          (phase1_preserves cfg so n p.1).2.2.2.2]
      exact ih (Nat.lt_of_succ_lt hlt) p.1 p.2 hr

/-- Claim C10: before the first preconditioner rebuild, every per-layer
preconditioner pair is `((1/(1+lmbda))*I, (1/(1+lmbda))*I)` (identity
factors regularized and inverted), and applying that preconditioner scales
any raw gradient elementwise by `1/(1+lmbda)^2`. -/
theorem claim10_initial_preconditioner (cfg : KfacConfig) (go : GradOracle sz)
    (so : StatsOracle sz) (ip : Params sz) (hl : 1 + cfg.lmbda ≠ 0) :
    compute_precond (init_factor_estimates sz) cfg.lmbda =
      some (scaledIdPrecond sz cfg.lmbda) ∧
    (∀ n st tr, n < cfg.update_precond_period → kfacRun cfg go so ip n = some (st, tr) →
       st.precond = scaledIdPrecond sz cfg.lmbda) ∧
    (∀ g : Params sz, apply_preconditioner (scaledIdPrecond sz cfg.lmbda) g =
       fun i => ((1 + cfg.lmbda)⁻¹ ^ 2 • (g i).1, (1 + cfg.lmbda)⁻¹ ^ 2 • (g i).2)) := by
  refine ⟨compute_precond_init sz cfg.lmbda hl,
    fun n st tr hlt h => kfacRun_precond_of_lt cfg go so ip hl n hlt st tr h, ?_⟩
  intro g
  funext i
  show (splitW (kronp ((1 + cfg.lmbda)⁻¹ • 1) ((1 + cfg.lmbda)⁻¹ • 1)
          (stack (g i).1 (g i).2)),
        splitB (kronp ((1 + cfg.lmbda)⁻¹ • 1) ((1 + cfg.lmbda)⁻¹ • 1)
          (stack (g i).1 (g i).2))) = _
  rw [kronp_smul_one, splitW_smul, splitB_smul, splitW_stack, splitB_stack]

/-- The configuration of the C10 witness run (`lmbda = 1`). -/
def c10Config : KfacConfig := ⟨1, 0, 1, 1, 1, 1, 0, 1/2⟩

/-- The C10 witness run succeeds at 0 iterations. -/
theorem c10Run_isSome : (kfacRun c10Config go0 so0 params0 0).isSome = true := by decide

/-- The state and trace after 0 iterations of the C10 witness run. -/
def c10R : KState sz0 × List (ℕ × KEvent) :=
  (kfacRun c10Config go0 so0 params0 0).get c10Run_isSome

/-- Witness for C10 at a concrete configuration and run. -/
theorem claim10_initial_preconditioner_witness :
    (1 + c10Config.lmbda ≠ 0) ∧
    compute_precond (init_factor_estimates sz0) c10Config.lmbda =
      some (scaledIdPrecond sz0 c10Config.lmbda) ∧
    c10R.1.precond = scaledIdPrecond sz0 c10Config.lmbda ∧
    apply_preconditioner (scaledIdPrecond sz0 c10Config.lmbda) params0 =
      fun i => ((1 + c10Config.lmbda)⁻¹ ^ 2 • (params0 i).1,
                (1 + c10Config.lmbda)⁻¹ ^ 2 • (params0 i).2) := by
  have hl : 1 + c10Config.lmbda ≠ 0 := by norm_num [c10Config]
  have h := claim10_initial_preconditioner c10Config go0 so0 params0 hl
  exact ⟨hl, h.1,
    h.2.1 0 c10R.1 c10R.2 (by decide) (Option.some_get c10Run_isSome).symm,
    h.2.2 params0⟩

end KfacPre
